import Mathlib

/-!
Shallow embedding of the borsh deserializer (`src/borsh-rs/borsh/src/de/mod.rs`).

A decoder state is the list of still-unread bytes; a deserializer takes the
state and returns either an `IoError` or the decoded value together with the
remaining bytes.  Machine-level byte values are `UInt8`; lengths, counts and
ports are `Nat` (a `u32` read from four bytes is below `2 ^ 32` by
construction, and the `as usize` casts in the source do not truncate).
An IEEE float value is represented by its bit pattern, which is all the
deserializer in the source inspects (`from_bits` followed by `is_nan`).
-/

namespace Borsh

/-- The kinds of `std::io::ErrorKind` the deserializer constructs. -/
inductive ErrorKind where
  | UnexpectedEof
  | InvalidData
  | InvalidInput
  deriving DecidableEq, Repr

/-- A `std::io::Error`: a kind plus a human-readable message. -/
structure IoError where
  kind : ErrorKind
  msg : String
  deriving DecidableEq, Repr

/-- A deserializer for values of type `α`: it consumes bytes from the front of
the state and returns the value together with the unread remainder. -/
abbrev Deser (α : Type) := List UInt8 → Except IoError (α × List UInt8)

/-- Modelled from the spec: the Byte Source's `read` operation of the `Input`
implementation for byte slices (that implementation lives outside the provided
source file).  `read` fills the requested buffer completely, returning exactly
`n` bytes, or fails with `UnexpectedEof` when fewer bytes remain; no partial
fill is a success.  `remaining()` is the length of the unread list. -/
def readBytes (n : Nat) (src : List UInt8) : Except IoError (List UInt8 × List UInt8) :=
  if n ≤ src.length then .ok (src.take n, src.drop n)
  else .error ⟨.UnexpectedEof, "failed to fill whole buffer"⟩

/-- Modelled from the spec: the Byte Source's `read_byte` one-byte
convenience. -/
def readByte (src : List UInt8) : Except IoError (UInt8 × List UInt8) :=
  match src with
  | [] => .error ⟨.UnexpectedEof, "failed to fill whole buffer"⟩
  | b :: rest => .ok (b, rest)

/-- Little-endian value of a byte list, as `from_le_bytes` computes it. -/
def leValue : List UInt8 → Nat
  | [] => 0
  | b :: rest => b.toNat + 256 * leValue rest

/-- `impl BorshDeserialize for u8`: read one byte. -/
def u8Deserialize : Deser UInt8 := fun src =>
  match readBytes 1 src with
  | .error e => .error e
  | .ok (bs, rest) => .ok (bs.headI, rest)

/-- `impl_for_integer!(u16)` (used for ports): read two bytes, little-endian. -/
def u16Deserialize : Deser Nat := fun src =>
  match readBytes 2 src with
  | .error e => .error e
  | .ok (bs, rest) => .ok (leValue bs, rest)

/-- `impl_for_integer!(u32)` (used for every length field): read four bytes,
little-endian. -/
def u32Deserialize : Deser Nat := fun src =>
  match readBytes 4 src with
  | .error e => .error e
  | .ok (bs, rest) => .ok (leValue bs, rest)

/-- `BorshDeserialize::try_from_slice`: copy the slice, run one deserialize,
then require that no unread bytes remain (`ERROR_NOT_ALL_BYTES_READ`). -/
def tryFromSlice {α : Type} (d : Deser α) (v : List UInt8) : Except IoError α :=
  match d v with
  | .error e => .error e
  | .ok (result, rest) =>
    if rest.length > 0 then .error ⟨.InvalidData, "Not all bytes read"⟩
    else .ok result

/-- `f32::from_bits(u).is_nan()`: exponent bits all ones and a nonzero
mantissa (IEEE binary32: 1 sign bit, 8 exponent bits, 23 mantissa bits). -/
def f32IsNan (bits : Nat) : Bool :=
  decide ((bits / 2 ^ 23) % 2 ^ 8 = 0xff) && decide (bits % 2 ^ 23 ≠ 0)

/-- `f64::from_bits(u).is_nan()`: exponent bits all ones and a nonzero
mantissa (IEEE binary64: 1 sign bit, 11 exponent bits, 52 mantissa bits). -/
def f64IsNan (bits : Nat) : Bool :=
  decide ((bits / 2 ^ 52) % 2 ^ 11 = 0x7ff) && decide (bits % 2 ^ 52 ≠ 0)

/-- Message of the error raised for NaN bit patterns. -/
def nanErrorMsg : String := "For portability reasons we do not allow to deserialize NaNs."

/-- `impl_for_float!(f32, u32)`: read four bytes, reinterpret little-endian as
an IEEE binary32 bit pattern, and reject NaN with `InvalidInput`.  The decoded
float is represented by its bit pattern. -/
def f32Deserialize : Deser Nat := fun src =>
  match readBytes 4 src with
  | .error e => .error e
  | .ok (bs, rest) =>
    let res := leValue bs
    if f32IsNan res then .error ⟨.InvalidInput, nanErrorMsg⟩
    else .ok (res, rest)

/-- `impl_for_float!(f64, u64)`: read eight bytes, reinterpret little-endian as
an IEEE binary64 bit pattern, and reject NaN with `InvalidInput`. -/
def f64Deserialize : Deser Nat := fun src =>
  match readBytes 8 src with
  | .error e => .error e
  | .ok (bs, rest) =>
    let res := leValue bs
    if f64IsNan res then .error ⟨.InvalidInput, nanErrorMsg⟩
    else .ok (res, rest)

/-- `impl BorshDeserialize for bool`: `input.read_byte()? == 1`. -/
def boolDeserialize : Deser Bool := fun src =>
  match readByte src with
  | .error e => .error e
  | .ok (b, rest) => .ok (b == 1, rest)

/-- `impl BorshDeserialize for Option<T>`: read one flag byte; `0` is `None`,
anything else deserializes the payload and wraps it in `Some`. -/
def optionDeserialize {α : Type} (d : Deser α) : Deser (Option α) := fun src =>
  match readBytes 1 src with
  | .error e => .error e
  | .ok (flag, rest) =>
    if flag.headI = 0 then .ok (none, rest)
    else
      match d rest with
      | .error e => .error e
      | .ok (x, rest2) => .ok (some x, rest2)

/-- `size_of::<String>()`: three machine words on the 64-bit targets the crate
is built for. -/
def sizeOfString : Nat := 24

/-- A UTF-8 continuation byte, `0x80 ..= 0xbf`. -/
def isContinuation (b : UInt8) : Bool := decide (0x80 ≤ b ∧ b ≤ 0xbf)

/-- `String::from_utf8` validity (the standard UTF-8 well-formedness check,
table from RFC 3629): models the validation the source delegates to the
standard library. -/
def validUtf8 : List UInt8 → Bool
  | [] => true
  | b :: rest =>
    if b ≤ 0x7f then validUtf8 rest
    else if 0xc2 ≤ b ∧ b ≤ 0xdf then
      match rest with
      | c1 :: rest1 => isContinuation c1 && validUtf8 rest1
      | [] => false
    else if b = 0xe0 then
      match rest with
      | c1 :: c2 :: rest2 =>
        decide (0xa0 ≤ c1 ∧ c1 ≤ 0xbf) && isContinuation c2 && validUtf8 rest2
      | _ => false
    else if (0xe1 ≤ b ∧ b ≤ 0xec) ∨ (0xee ≤ b ∧ b ≤ 0xef) then
      match rest with
      | c1 :: c2 :: rest2 => isContinuation c1 && isContinuation c2 && validUtf8 rest2
      | _ => false
    else if b = 0xed then
      match rest with
      | c1 :: c2 :: rest2 =>
        decide (0x80 ≤ c1 ∧ c1 ≤ 0x9f) && isContinuation c2 && validUtf8 rest2
      | _ => false
    else if b = 0xf0 then
      match rest with
      | c1 :: c2 :: c3 :: rest3 =>
        decide (0x90 ≤ c1 ∧ c1 ≤ 0xbf) && isContinuation c2 && isContinuation c3 &&
          validUtf8 rest3
      | _ => false
    else if 0xf1 ≤ b ∧ b ≤ 0xf3 then
      match rest with
      | c1 :: c2 :: c3 :: rest3 =>
        isContinuation c1 && isContinuation c2 && isContinuation c3 && validUtf8 rest3
      | _ => false
    else if b = 0xf4 then
      match rest with
      | c1 :: c2 :: c3 :: rest3 =>
        decide (0x80 ≤ c1 ∧ c1 ≤ 0x8f) && isContinuation c2 && isContinuation c3 &&
          validUtf8 rest3
      | _ => false
    else false

/-- `impl BorshDeserialize for String`, exactly as the source is written: read
a `u32` length, compute `capacity = min(rem_len / size_of::<String>(), len)`,
build a buffer of size `capacity` (`vec![0; capacity]`), `read` into that
buffer — so only `capacity` bytes are read, not `len` — and UTF-8-validate
what was read.  The decoded string is represented by its byte content. -/
def stringDeserialize : Deser (List UInt8) := fun src =>
  match u32Deserialize src with
  | .error e => .error e
  | .ok (len, rest) =>
    let capacity := min (if sizeOfString = 0 then 0 else rest.length / sizeOfString) len
    match readBytes capacity rest with
    | .error e => .error e
    | .ok (bs, rest2) =>
      if validUtf8 bs then .ok (bs, rest2)
      else .error ⟨.InvalidData, "invalid utf-8 sequence"⟩

/-- The capacity hint of `impl BorshDeserialize for Vec<T>`:
`min(rem_len.checked_div(size_of::<T>()).unwrap_or(0), len)`. -/
def vecCapacityHint (elemSize rem len : Nat) : Nat :=
  min (if elemSize = 0 then 0 else rem / elemSize) len

/-- The element loop of `impl BorshDeserialize for Vec<T>`: decode exactly `n`
elements in order, appending each, propagating the first element failure. -/
def decodeElems {α : Type} (d : Deser α) : Nat → Deser (List α)
  | 0 => fun src => .ok ([], src)
  | n + 1 => fun src =>
    match d src with
    | .error e => .error e
    | .ok (x, rest) =>
      match decodeElems d n rest with
      | .error e => .error e
      | .ok (xs, rest2) => .ok (x :: xs, rest2)

/-- `impl BorshDeserialize for Vec<T>`: read a `u32` length, compute the
capacity hint (`Vec::with_capacity` reserves space but holds no elements, so
the hint has no effect on the decoded value), then decode `len` elements. -/
def vecDeserialize {α : Type} (d : Deser α) (elemSize : Nat) : Deser (List α) := fun src =>
  match u32Deserialize src with
  | .error e => .error e
  | .ok (len, rest) =>
    let _capacity := vecCapacityHint elemSize rest.length len
    decodeElems d len rest

/-- Map insertion: the later value for a key replaces the earlier one
(`HashMap::insert` / `BTreeMap::insert`); a map is modelled as an association
list with distinct keys. -/
def insertAssoc {κ ν : Type} [DecidableEq κ] (k : κ) (v : ν) :
    List (κ × ν) → List (κ × ν)
  | [] => [(k, v)]
  | (k1, v1) :: rest => if k1 = k then (k, v) :: rest else (k1, v1) :: insertAssoc k v rest

/-- Map lookup on the association-list model. -/
def lookupAssoc {κ ν : Type} [DecidableEq κ] (k : κ) : List (κ × ν) → Option ν
  | [] => none
  | (k1, v1) :: rest => if k1 = k then some v1 else lookupAssoc k rest

/-- The shared loop of the map impls: `len` times, decode a key, decode a
value, insert the pair. -/
def mapDecodeLoop {κ ν : Type} [DecidableEq κ] (dk : Deser κ) (dv : Deser ν) :
    Nat → List (κ × ν) → Deser (List (κ × ν))
  | 0, acc => fun src => .ok (acc, src)
  | n + 1, acc => fun src =>
    match dk src with
    | .error e => .error e
    | .ok (k, rest1) =>
      match dv rest1 with
      | .error e => .error e
      | .ok (v, rest2) => mapDecodeLoop dk dv n (insertAssoc k v acc) rest2

/-- `impl BorshDeserialize for HashMap<K, V>`: read a `u32` count, then run the
key/value loop starting from the empty map. -/
def hashMapDeserialize {κ ν : Type} [DecidableEq κ] (dk : Deser κ) (dv : Deser ν) :
    Deser (List (κ × ν)) := fun src =>
  match u32Deserialize src with
  | .error e => .error e
  | .ok (len, rest) => mapDecodeLoop dk dv len [] rest

/-- `impl BorshDeserialize for BTreeMap<K, V>`: identical loop to the hash-map
impl (the source bodies differ only in the container constructed). -/
def bTreeMapDeserialize {κ ν : Type} [DecidableEq κ] (dk : Deser κ) (dv : Deser ν) :
    Deser (List (κ × ν)) := fun src =>
  match u32Deserialize src with
  | .error e => .error e
  | .ok (len, rest) => mapDecodeLoop dk dv len [] rest

/-- `std::net::SocketAddr`: the IPv4/IPv6 tagged union.  Addresses are kept as
their raw bytes; `v6` carries the flow-info and scope-id fields. -/
inductive SocketAddr where
  | v4 (ip : List UInt8) (port : Nat)
  | v6 (ip : List UInt8) (port : Nat) (flowinfo : Nat) (scopeId : Nat)
  deriving DecidableEq, Repr

/-- `impl BorshDeserialize for Ipv4Addr`: four raw bytes. -/
def ipv4Deserialize : Deser (List UInt8) := fun src => readBytes 4 src

/-- `impl BorshDeserialize for Ipv6Addr`: sixteen raw bytes. -/
def ipv6Deserialize : Deser (List UInt8) := fun src => readBytes 16 src

/-- `impl BorshDeserialize for SocketAddrV4`: address then `u16` port. -/
def socketAddrV4Deserialize : Deser SocketAddr := fun src =>
  match ipv4Deserialize src with
  | .error e => .error e
  | .ok (ip, rest) =>
    match u16Deserialize rest with
    | .error e => .error e
    | .ok (port, rest2) => .ok (.v4 ip port, rest2)

/-- `impl BorshDeserialize for SocketAddrV6`: address then `u16` port;
flow-info and scope-id are reconstructed as zero. -/
def socketAddrV6Deserialize : Deser SocketAddr := fun src =>
  match ipv6Deserialize src with
  | .error e => .error e
  | .ok (ip, rest) =>
    match u16Deserialize rest with
    | .error e => .error e
    | .ok (port, rest2) => .ok (.v6 ip port 0 0, rest2)

/-- `impl BorshDeserialize for SocketAddr`: one discriminant byte, `0` for V4,
`1` for V6, anything else `InvalidInput` naming the value. -/
def socketAddrDeserialize : Deser SocketAddr := fun src =>
  match u8Deserialize src with
  | .error e => .error e
  | .ok (kind, rest) =>
    if kind = 0 then socketAddrV4Deserialize rest
    else if kind = 1 then socketAddrV6Deserialize rest
    else .error ⟨.InvalidInput, "Invalid SocketAddr variant: " ++ toString kind.toNat⟩

/-- `impl BorshDeserialize for Box<[u8]>`: read a `u32` length, refuse with
`InvalidInput` before allocating when it exceeds the remaining bytes, then
read exactly that many raw bytes. -/
def boxedBytesDeserialize : Deser (List UInt8) := fun src =>
  match u32Deserialize src with
  | .error e => .error e
  | .ok (len, rest) =>
    if len > rest.length then
      .error ⟨.InvalidInput, "Cannot allocate more bytes then we have in remaining input"⟩
    else
      match readBytes len rest with
      | .error e => .error e
      | .ok (bs, rest2) => .ok (bs, rest2)

/-- `impl_arrays!`: decode exactly `n` elements in order into the fixed-size
result, aborting on the first element failure (the source initializes
`[T::default(); N]` and overwrites every slot in index order). -/
def arrayDeserialize {α : Type} (d : Deser α) : Nat → Deser (List α)
  | 0 => fun src => .ok ([], src)
  | n + 1 => fun src =>
    match d src with
    | .error e => .error e
    | .ok (x, rest) =>
      match arrayDeserialize d n rest with
      | .error e => .error e
      | .ok (xs, rest2) => .ok (x :: xs, rest2)

/-! ### Helper lemmas about the Byte Source and the loops -/

/-- Reading exactly the length of a prefix returns that prefix and the rest. -/
theorem readBytes_exact (bs rest : List UInt8) :
    readBytes bs.length (bs ++ rest) = .ok (bs, rest) := by
  unfold readBytes
  rw [if_pos (by simp)]
  rw [List.take_left, List.drop_left]

/-- Reading more bytes than remain fails with `UnexpectedEof`. -/
theorem readBytes_eof (n : Nat) (src : List UInt8) (h : src.length < n) :
    readBytes n src = .error ⟨.UnexpectedEof, "failed to fill whole buffer"⟩ := by
  unfold readBytes
  rw [if_neg (by omega)]

theorem readBytes_one (b : UInt8) (rest : List UInt8) :
    readBytes 1 (b :: rest) = .ok ([b], rest) := by
  unfold readBytes
  rw [if_pos (by simp)]
  rfl

theorem readBytes_four (b0 b1 b2 b3 : UInt8) (rest : List UInt8) :
    readBytes 4 (b0 :: b1 :: b2 :: b3 :: rest) = .ok ([b0, b1, b2, b3], rest) := by
  unfold readBytes
  rw [if_pos (by simp)]
  rfl

theorem readBytes_sixteen (b0 b1 b2 b3 b4 b5 b6 b7 b8 b9 b10 b11 b12 b13 b14 b15 : UInt8)
    (rest : List UInt8) :
    readBytes 16 (b0 :: b1 :: b2 :: b3 :: b4 :: b5 :: b6 :: b7 :: b8 :: b9 :: b10 :: b11 ::
        b12 :: b13 :: b14 :: b15 :: rest) =
      .ok ([b0, b1, b2, b3, b4, b5, b6, b7, b8, b9, b10, b11, b12, b13, b14, b15], rest) := by
  unfold readBytes
  rw [if_pos (by simp)]
  rfl

theorem u8Deserialize_cons (b : UInt8) (rest : List UInt8) :
    u8Deserialize (b :: rest) = .ok (b, rest) := by
  unfold u8Deserialize readBytes
  rw [if_pos (by simp)]
  rfl

theorem u16Deserialize_cons (p0 p1 : UInt8) (rest : List UInt8) :
    u16Deserialize (p0 :: p1 :: rest) = .ok (leValue [p0, p1], rest) := by
  unfold u16Deserialize readBytes
  rw [if_pos (by simp)]
  rfl

theorem u32Deserialize_cons (b0 b1 b2 b3 : UInt8) (rest : List UInt8) :
    u32Deserialize (b0 :: b1 :: b2 :: b3 :: rest) = .ok (leValue [b0, b1, b2, b3], rest) := by
  unfold u32Deserialize readBytes
  rw [if_pos (by simp)]
  rfl

/-- Inversion of a successful `u32` read: four bytes were present and consumed. -/
theorem u32Deserialize_ok {src : List UInt8} {len : Nat} {rest : List UInt8}
    (h : u32Deserialize src = .ok (len, rest)) :
    4 ≤ src.length ∧ len = leValue (src.take 4) ∧ rest = src.drop 4 := by
  unfold u32Deserialize readBytes at h
  by_cases h4 : 4 ≤ src.length
  · rw [if_pos h4] at h
    simp only [Except.ok.injEq, Prod.mk.injEq] at h
    exact ⟨h4, h.1.symm, h.2.symm⟩
  · rw [if_neg h4] at h
    simp at h

theorem decodeElems_zero {α : Type} (d : Deser α) (src : List UInt8) :
    decodeElems d 0 src = .ok ([], src) := rfl

theorem decodeElems_succ {α : Type} (d : Deser α) (n : Nat) (src : List UInt8) :
    decodeElems d (n + 1) src =
      match d src with
      | .error e => .error e
      | .ok (x, rest) =>
        match decodeElems d n rest with
        | .error e => .error e
        | .ok (xs, rest2) => .ok (x :: xs, rest2) := rfl

/-- A successful element loop returns exactly the requested number of elements. -/
theorem decodeElems_ok_length {α : Type} (d : Deser α) :
    ∀ (n : Nat) {src : List UInt8} {xs : List α} {rest : List UInt8},
      decodeElems d n src = .ok (xs, rest) → xs.length = n := by
  intro n
  induction n with
  | zero =>
    intro src xs rest h
    simp only [decodeElems_zero, Except.ok.injEq, Prod.mk.injEq] at h
    rw [← h.1]
    rfl
  | succ n ih =>
    intro src xs rest h
    rw [decodeElems_succ] at h
    split at h
    · simp at h
    · rename_i x r1 hds
      split at h
      · simp at h
      · rename_i xs1 rest2 hrec
        simp only [Except.ok.injEq, Prod.mk.injEq] at h
        rw [← h.1]
        simp [ih hrec]

/-- When one element fails, the loop over any larger count fails with that
element error. -/
theorem decodeElems_error_after {α : Type} (d : Deser α) :
    ∀ (n : Nat) {src : List UInt8} {xs : List α} {rest : List UInt8} {e : IoError},
      decodeElems d n src = .ok (xs, rest) → d rest = .error e →
      ∀ m : Nat, decodeElems d (n + m + 1) src = .error e := by
  intro n
  induction n with
  | zero =>
    intro src xs rest e h hd m
    simp only [decodeElems_zero, Except.ok.injEq, Prod.mk.injEq] at h
    obtain ⟨hxs, hsrc⟩ := h
    subst hsrc
    have hm : 0 + m + 1 = m + 1 := by omega
    rw [hm, decodeElems_succ, hd]
  | succ n ih =>
    intro src xs rest e h hd m
    rw [decodeElems_succ] at h
    split at h
    · simp at h
    · rename_i x r1 hds
      split at h
      · simp at h
      · rename_i xs1 rest2 hrec
        simp only [Except.ok.injEq, Prod.mk.injEq] at h
        have hrest : rest2 = rest := h.2
        subst hrest
        have hmain := ih hrec hd m
        have harith : n + 1 + m + 1 = (n + m + 1) + 1 := by omega
        rw [harith, decodeElems_succ, hds]
        simp [hmain]

/-- The byte-element loop hits `UnexpectedEof` whenever the count exceeds the
bytes that remain. -/
theorem decodeElems_u8_eof :
    ∀ (n : Nat) (src : List UInt8), src.length < n →
      decodeElems u8Deserialize n src =
        .error ⟨.UnexpectedEof, "failed to fill whole buffer"⟩ := by
  intro n
  induction n with
  | zero =>
    intro src h
    exact absurd h (Nat.not_lt_zero _)
  | succ n ih =>
    intro src h
    cases src with
    | nil =>
      rw [decodeElems_succ]
      rfl
    | cons b rest =>
      have hr : rest.length < n := by simp at h; omega
      rw [decodeElems_succ, u8Deserialize_cons]
      simp [ih rest hr]

theorem mapDecodeLoop_zero {κ ν : Type} [DecidableEq κ] (dk : Deser κ) (dv : Deser ν)
    (acc : List (κ × ν)) (src : List UInt8) :
    mapDecodeLoop dk dv 0 acc src = .ok (acc, src) := rfl

theorem mapDecodeLoop_succ {κ ν : Type} [DecidableEq κ] (dk : Deser κ) (dv : Deser ν)
    (n : Nat) (acc : List (κ × ν)) (src : List UInt8) :
    mapDecodeLoop dk dv (n + 1) acc src =
      match dk src with
      | .error e => .error e
      | .ok (k, rest1) =>
        match dv rest1 with
        | .error e => .error e
        | .ok (v, rest2) => mapDecodeLoop dk dv n (insertAssoc k v acc) rest2 := rfl

/-- Inserting grows the association list by at most one entry. -/
theorem insertAssoc_length_le {κ ν : Type} [DecidableEq κ] (k : κ) (v : ν) :
    ∀ m : List (κ × ν), (insertAssoc k v m).length ≤ m.length + 1 := by
  intro m
  induction m with
  | nil => simp [insertAssoc]
  | cons p rest ih =>
    obtain ⟨k1, v1⟩ := p
    unfold insertAssoc
    by_cases hk : k1 = k
    · rw [if_pos hk]
      simp
    · rw [if_neg hk]
      simp only [List.length_cons]
      omega

/-- Each loop iteration adds at most one entry, so a successful map decode has
at most the declared count of entries. -/
theorem mapDecodeLoop_ok_length {κ ν : Type} [DecidableEq κ] (dk : Deser κ) (dv : Deser ν) :
    ∀ (n : Nat) (acc : List (κ × ν)) {src : List UInt8} {m : List (κ × ν)}
      {rest : List UInt8},
      mapDecodeLoop dk dv n acc src = .ok (m, rest) → m.length ≤ acc.length + n := by
  intro n
  induction n with
  | zero =>
    intro acc src m rest h
    simp only [mapDecodeLoop_zero, Except.ok.injEq, Prod.mk.injEq] at h
    rw [← h.1]
    omega
  | succ n ih =>
    intro acc src m rest h
    rw [mapDecodeLoop_succ] at h
    split at h
    · simp at h
    · rename_i k r1 hdk
      split at h
      · simp at h
      · rename_i v r2 hdv
        have := ih (insertAssoc k v acc) h
        have hlen := insertAssoc_length_le k v acc
        omega

/-- The value inserted last for a key is the one the map holds. -/
theorem lookupAssoc_insertAssoc {κ ν : Type} [DecidableEq κ] (k : κ) (v : ν) :
    ∀ m : List (κ × ν), lookupAssoc k (insertAssoc k v m) = some v := by
  intro m
  induction m with
  | nil => simp [insertAssoc, lookupAssoc]
  | cons p rest ih =>
    obtain ⟨k1, v1⟩ := p
    unfold insertAssoc
    by_cases hk : k1 = k
    · rw [if_pos hk]
      simp [lookupAssoc]
    · rw [if_neg hk]
      unfold lookupAssoc
      rw [if_neg hk]
      exact ih

/-! ### The claims -/

/-- Claim C1: the spec says a string decode reads a 4-byte length and then
exactly that many bytes, failing with `UnexpectedEof` on the bytes
`[0x03, 0x00, 0x00, 0x00, 0x41]`.  The code instead reads only
`min(rem_len / size_of::<String>(), len)` bytes — the capacity clamp is used
as the read length — so on that input it reads zero data bytes and returns an
empty string with the byte `0x41` unread, and a well-formed five-byte
encoding of a five-character string decodes to the empty string as well. -/
theorem stringDeserialize_truncated_read :
    stringDeserialize [0x03, 0x00, 0x00, 0x00, 0x41] = .ok ([], [0x41]) ∧
    stringDeserialize [0x05, 0x00, 0x00, 0x00, 0x68, 0x65, 0x6c, 0x6c, 0x6f] =
      .ok ([], [0x68, 0x65, 0x6c, 0x6c, 0x6f]) := by
  constructor
  · rfl
  · rfl

/-- Claim C2: `try_from_slice` succeeds exactly when the deserializer succeeds
and consumes every byte of the slice; leftover bytes after a successful decode
give `InvalidData` with the message "Not all bytes read", and a deserializer
error is passed through unchanged. -/
theorem tryFromSlice_exact_consumption {α : Type} (d : Deser α) (v : List UInt8) :
    (∀ x : α, tryFromSlice d v = .ok x ↔ d v = .ok (x, [])) ∧
    (∀ (x : α) (b : UInt8) (rest : List UInt8), d v = .ok (x, b :: rest) →
      tryFromSlice d v = .error ⟨.InvalidData, "Not all bytes read"⟩) ∧
    (∀ e : IoError, d v = .error e → tryFromSlice d v = .error e) := by
  refine ⟨fun x => ⟨fun h => ?_, fun h => ?_⟩, fun x b rest h => ?_, fun e h => ?_⟩
  · unfold tryFromSlice at h
    split at h
    · simp at h
    · rename_i x0 rest0 heq
      split at h
      · simp at h
      · rename_i hr
        rw [Except.ok.injEq] at h
        subst h
        have h0 : rest0 = [] := List.length_eq_zero.mp (by omega)
        rw [heq, h0]
  · unfold tryFromSlice
    rw [h]
    rfl
  · unfold tryFromSlice
    rw [h]
    simp
  · unfold tryFromSlice
    rw [h]

/-- Witness for C2 at a concrete input: a complete one-byte encoding followed
by one trailing byte fails with `InvalidData` "Not all bytes read". -/
theorem tryFromSlice_exact_consumption_witness :
    tryFromSlice u8Deserialize [7, 9] = .error ⟨.InvalidData, "Not all bytes read"⟩ :=
  (tryFromSlice_exact_consumption u8Deserialize [7, 9]).2.1 7 9 [] (by rfl)

/-- Claim C3: the length-prefixed byte buffer reads a 4-byte length, fails with
`InvalidInput` whenever the declared length exceeds the remaining bytes
(before any buffer is built), and otherwise returns exactly the declared
number of raw bytes. -/
theorem boxedBytesDeserialize_guarded (b0 b1 b2 b3 : UInt8) (rest : List UInt8) :
    (rest.length < leValue [b0, b1, b2, b3] →
      boxedBytesDeserialize (b0 :: b1 :: b2 :: b3 :: rest) =
        .error ⟨.InvalidInput, "Cannot allocate more bytes then we have in remaining input"⟩) ∧
    (leValue [b0, b1, b2, b3] ≤ rest.length →
      boxedBytesDeserialize (b0 :: b1 :: b2 :: b3 :: rest) =
        .ok (rest.take (leValue [b0, b1, b2, b3]), rest.drop (leValue [b0, b1, b2, b3]))) := by
  constructor
  · intro h
    simp [boxedBytesDeserialize, u32Deserialize_cons, h]
  · intro h
    have h2 : ¬ rest.length < leValue [b0, b1, b2, b3] := not_lt.mpr h
    simp [boxedBytesDeserialize, u32Deserialize_cons, h2, readBytes, h]

/-- Witness for C3 at a concrete input: declared length 2 with one remaining
byte fails with `InvalidInput`. -/
theorem boxedBytesDeserialize_guarded_witness :
    boxedBytesDeserialize [2, 0, 0, 0, 5] =
      .error ⟨.InvalidInput, "Cannot allocate more bytes then we have in remaining input"⟩ :=
  (boxedBytesDeserialize_guarded 2 0 0 0 [5]).1 (by decide)

/-- Claim C4: on an input of the exact float width, float deserialization
reinterprets the bytes little-endian as the IEEE bit pattern and fails — with
`InvalidInput` and with no other failure — exactly when that pattern is a NaN;
the 32-bit pattern `0x7fc00000` is rejected. -/
theorem floatDeserialize_nan_guard (bs : List UInt8) :
    (bs.length = 4 →
      (f32IsNan (leValue bs) = true →
        f32Deserialize bs = .error ⟨.InvalidInput, nanErrorMsg⟩) ∧
      (f32IsNan (leValue bs) = false → f32Deserialize bs = .ok (leValue bs, []))) ∧
    (bs.length = 8 →
      (f64IsNan (leValue bs) = true →
        f64Deserialize bs = .error ⟨.InvalidInput, nanErrorMsg⟩) ∧
      (f64IsNan (leValue bs) = false → f64Deserialize bs = .ok (leValue bs, []))) ∧
    f32Deserialize [0x00, 0x00, 0xc0, 0x7f] = .error ⟨.InvalidInput, nanErrorMsg⟩ := by
  refine ⟨fun h4 => ⟨fun hn => ?_, fun hn => ?_⟩,
    fun h8 => ⟨fun hn => ?_, fun hn => ?_⟩, by rfl⟩
  · have hr : readBytes 4 bs = .ok (bs, []) := by
      have hx := readBytes_exact bs []
      rw [List.append_nil, h4] at hx
      exact hx
    simp [f32Deserialize, hr, hn]
  · have hr : readBytes 4 bs = .ok (bs, []) := by
      have hx := readBytes_exact bs []
      rw [List.append_nil, h4] at hx
      exact hx
    simp [f32Deserialize, hr, hn]
  · have hr : readBytes 8 bs = .ok (bs, []) := by
      have hx := readBytes_exact bs []
      rw [List.append_nil, h8] at hx
      exact hx
    simp [f64Deserialize, hr, hn]
  · have hr : readBytes 8 bs = .ok (bs, []) := by
      have hx := readBytes_exact bs []
      rw [List.append_nil, h8] at hx
      exact hx
    simp [f64Deserialize, hr, hn]

/-- Witness for C4 at a concrete input: the bit pattern of 1.0f32 is not NaN
and decodes to itself. -/
theorem floatDeserialize_nan_guard_witness :
    f32Deserialize [0x00, 0x00, 0x80, 0x3f] = .ok (leValue [0x00, 0x00, 0x80, 0x3f], []) :=
  ((floatDeserialize_nan_guard [0x00, 0x00, 0x80, 0x3f]).1 (by decide)).2 (by decide)

/-- Claim C5: socket-address deserialization reads one discriminant byte:
`0` gives an IPv4 address (4 raw bytes, then a little-endian port), `1` gives
an IPv6 address (16 raw bytes, then a little-endian port, flow-info and
scope-id zero), any other value `d` fails with `InvalidInput` naming `d`, and
`[0x02]` in particular fails citing 2. -/
theorem socketAddrDeserialize_discriminant :
    socketAddrDeserialize [] = .error ⟨.UnexpectedEof, "failed to fill whole buffer"⟩ ∧
    (∀ (d : UInt8) (rest : List UInt8), d ≠ 0 → d ≠ 1 →
      socketAddrDeserialize (d :: rest) =
        .error ⟨.InvalidInput, "Invalid SocketAddr variant: " ++ toString d.toNat⟩) ∧
    (∀ (a0 a1 a2 a3 p0 p1 : UInt8) (rest : List UInt8),
      socketAddrDeserialize (0 :: a0 :: a1 :: a2 :: a3 :: p0 :: p1 :: rest) =
        .ok (.v4 [a0, a1, a2, a3] (leValue [p0, p1]), rest)) ∧
    (∀ (i0 i1 i2 i3 i4 i5 i6 i7 i8 i9 i10 i11 i12 i13 i14 i15 p0 p1 : UInt8)
      (rest : List UInt8),
      socketAddrDeserialize (1 :: i0 :: i1 :: i2 :: i3 :: i4 :: i5 :: i6 :: i7 :: i8 ::
          i9 :: i10 :: i11 :: i12 :: i13 :: i14 :: i15 :: p0 :: p1 :: rest) =
        .ok (.v6 [i0, i1, i2, i3, i4, i5, i6, i7, i8, i9, i10, i11, i12, i13, i14, i15]
          (leValue [p0, p1]) 0 0, rest)) ∧
    socketAddrDeserialize [2] = .error ⟨.InvalidInput, "Invalid SocketAddr variant: 2"⟩ := by
  refine ⟨by rfl, fun d rest h0 h1 => ?_,
    fun a0 a1 a2 a3 p0 p1 rest => ?_,
    fun i0 i1 i2 i3 i4 i5 i6 i7 i8 i9 i10 i11 i12 i13 i14 i15 p0 p1 rest => ?_, by rfl⟩
  · rw [socketAddrDeserialize, u8Deserialize_cons]
    simp [h0, h1]
  · rw [socketAddrDeserialize, u8Deserialize_cons]
    simp [socketAddrV4Deserialize, ipv4Deserialize, readBytes_four, u16Deserialize_cons]
  · rw [socketAddrDeserialize, u8Deserialize_cons]
    simp [socketAddrV6Deserialize, ipv6Deserialize, readBytes_sixteen, u16Deserialize_cons]

/-- Witness for C5 at a concrete input: discriminant 5 is rejected with
`InvalidInput` naming 5. -/
theorem socketAddrDeserialize_discriminant_witness :
    socketAddrDeserialize [5] =
      .error ⟨.InvalidInput, "Invalid SocketAddr variant: " ++ toString (5 : UInt8).toNat⟩ :=
  socketAddrDeserialize_discriminant.2.1 5 [] (by decide) (by decide)

/-- Claim C6: optional-value deserialization reads one flag byte; `0` decodes
to `none` consuming exactly that byte, any nonzero flag decodes the payload
from the remaining bytes and wraps it in `some`, and `[0x01, 0x2A]` as an
optional byte yields `some 42`. -/
theorem optionDeserialize_flag_byte {α : Type} (d : Deser α) :
    (∀ rest : List UInt8, optionDeserialize d ((0 : UInt8) :: rest) = .ok (none, rest)) ∧
    (∀ (flag : UInt8) (rest : List UInt8), flag ≠ 0 →
      optionDeserialize d (flag :: rest) =
        match d rest with
        | .error e => .error e
        | .ok (x, rest2) => .ok (some x, rest2)) ∧
    optionDeserialize d [] = .error ⟨.UnexpectedEof, "failed to fill whole buffer"⟩ ∧
    optionDeserialize u8Deserialize [1, 0x2a] = .ok (some 42, []) := by
  refine ⟨fun rest => by simp [optionDeserialize, readBytes_one, List.headI],
    fun flag rest h => ?_, by rfl, by rfl⟩
  rw [optionDeserialize, readBytes_one]
  simp [List.headI, h]

/-- Witness for C6 at a concrete input: a nonzero flag byte (7) decodes the
payload and wraps it in `some`. -/
theorem optionDeserialize_flag_byte_witness :
    optionDeserialize u8Deserialize [7, 3] = .ok (some 3, []) :=
  ((optionDeserialize_flag_byte u8Deserialize).2.1 7 [3] (by decide)).trans (by rfl)

/-- Claim C7: boolean deserialization reads exactly one byte, returns `true`
exactly when it is 1 and `false` for every other byte value without error; the
only failure is `UnexpectedEof` on an empty source. -/
theorem boolDeserialize_one_byte :
    (∀ (b : UInt8) (rest : List UInt8), boolDeserialize (b :: rest) = .ok (b == 1, rest)) ∧
    boolDeserialize [] = .error ⟨.UnexpectedEof, "failed to fill whole buffer"⟩ := by
  exact ⟨fun b rest => rfl, rfl⟩

/-- Claim C8: sequence deserialization reads a 4-byte length; the allocation
hint never exceeds the minimum of the declared length and remaining bytes per
element size; a successful decode returns exactly the declared number of
elements; a failing element fails the whole decode with its error; and byte
elements past the end of the input fail with `UnexpectedEof`. -/
theorem vecDeserialize_bounded {α : Type} (d : Deser α) (elemSize : Nat) :
    (∀ rem len : Nat, vecCapacityHint elemSize rem len ≤ min len (rem / elemSize)) ∧
    (∀ (src : List UInt8) (xs : List α) (rest : List UInt8),
      vecDeserialize d elemSize src = .ok (xs, rest) →
      4 ≤ src.length ∧ xs.length = leValue (src.take 4)) ∧
    (∀ (n : Nat) (src : List UInt8) (xs : List α) (rest : List UInt8) (e : IoError)
      (m : Nat),
      decodeElems d n src = .ok (xs, rest) → d rest = .error e →
      decodeElems d (n + m + 1) src = .error e) ∧
    (∀ (b0 b1 b2 b3 : UInt8) (rest : List UInt8), rest.length < leValue [b0, b1, b2, b3] →
      vecDeserialize u8Deserialize 1 (b0 :: b1 :: b2 :: b3 :: rest) =
        .error ⟨.UnexpectedEof, "failed to fill whole buffer"⟩) := by
  refine ⟨fun rem len => ?_, fun src xs rest h => ?_,
    fun n src xs rest e m h hd => decodeElems_error_after d n h hd m,
    fun b0 b1 b2 b3 rest h => ?_⟩
  · unfold vecCapacityHint
    by_cases hz : elemSize = 0
    · rw [if_pos hz]
      simp
    · rw [if_neg hz]
      exact le_of_eq (Nat.min_comm _ _)
  · unfold vecDeserialize at h
    cases hu : u32Deserialize src with
    | error e => rw [hu] at h; simp at h
    | ok p =>
      obtain ⟨len, rest0⟩ := p
      rw [hu] at h
      obtain ⟨h4, hlen, hdrop⟩ := u32Deserialize_ok hu
      have hx : xs.length = len := decodeElems_ok_length d len h
      exact ⟨h4, by rw [hx, hlen]⟩
  · unfold vecDeserialize
    rw [u32Deserialize_cons]
    exact decodeElems_u8_eof (leValue [b0, b1, b2, b3]) rest h

/-- Witness for C8 at a concrete input: a declared length of 1 with no bytes
left fails with `UnexpectedEof`. -/
theorem vecDeserialize_bounded_witness :
    vecDeserialize u8Deserialize 1 [1, 0, 0, 0] =
      .error ⟨.UnexpectedEof, "failed to fill whole buffer"⟩ :=
  (vecDeserialize_bounded u8Deserialize 1).2.2.2 1 0 0 0 [] (by decide)

/-- Claim C9: both map deserializers read a 4-byte count and loop that many
times decoding a key then a value and inserting the pair; the later value for
a repeated key replaces the earlier one, so a successful decode has at most
the declared count of entries. -/
theorem mapDeserialize_count_bound {κ ν : Type} [DecidableEq κ]
    (dk : Deser κ) (dv : Deser ν) :
    (∀ (src : List UInt8) (m : List (κ × ν)) (rest : List UInt8),
      hashMapDeserialize dk dv src = .ok (m, rest) →
      4 ≤ src.length ∧ m.length ≤ leValue (src.take 4)) ∧
    (∀ (src : List UInt8) (m : List (κ × ν)) (rest : List UInt8),
      bTreeMapDeserialize dk dv src = .ok (m, rest) →
      4 ≤ src.length ∧ m.length ≤ leValue (src.take 4)) ∧
    (∀ (k : κ) (v : ν) (m : List (κ × ν)), lookupAssoc k (insertAssoc k v m) = some v) := by
  refine ⟨fun src m rest h => ?_, fun src m rest h => ?_,
    fun k v m => lookupAssoc_insertAssoc k v m⟩
  · unfold hashMapDeserialize at h
    cases hu : u32Deserialize src with
    | error e => rw [hu] at h; simp at h
    | ok p =>
      obtain ⟨len, rest0⟩ := p
      rw [hu] at h
      obtain ⟨h4, hlen, hdrop⟩ := u32Deserialize_ok hu
      have hm : m.length ≤ [].length + len := mapDecodeLoop_ok_length dk dv len [] h
      exact ⟨h4, by rw [← hlen]; simpa using hm⟩
  · unfold bTreeMapDeserialize at h
    cases hu : u32Deserialize src with
    | error e => rw [hu] at h; simp at h
    | ok p =>
      obtain ⟨len, rest0⟩ := p
      rw [hu] at h
      obtain ⟨h4, hlen, hdrop⟩ := u32Deserialize_ok hu
      have hm : m.length ≤ [].length + len := mapDecodeLoop_ok_length dk dv len [] h
      exact ⟨h4, by rw [← hlen]; simpa using hm⟩

/-- Witness for C9 at a concrete input: a one-entry encoding decodes to a map
with at most one entry. -/
theorem mapDeserialize_count_bound_witness :
    4 ≤ ([1, 0, 0, 0, 5, 7] : List UInt8).length ∧
      ([((5 : UInt8), (7 : UInt8))]).length ≤
        leValue (([1, 0, 0, 0, 5, 7] : List UInt8).take 4) :=
  (mapDeserialize_count_bound u8Deserialize u8Deserialize).1
    [1, 0, 0, 0, 5, 7] [(5, 7)] [] (by rfl)

/-- Claim C10: deserializing the zero-length array consumes no bytes and
succeeds on every input, so `try_from_slice` for it succeeds exactly on the
empty slice. -/
theorem arrayDeserialize_zero_length {α : Type} (d : Deser α) (v : List UInt8) :
    arrayDeserialize d 0 v = .ok ([], v) ∧
    (tryFromSlice (arrayDeserialize d 0) v = .ok ([] : List α) ↔ v = []) := by
  refine ⟨rfl, ?_⟩
  cases v with
  | nil => simp [tryFromSlice, arrayDeserialize]
  | cons b rest => simp [tryFromSlice, arrayDeserialize]

end Borsh
